import Mathlib

set_option autoImplicit false

/-!
Verification of the graph data model of pregel-rs (src/graph_frame.rs).

The source builds a `GraphFrame` from two polars `DataFrame`s, validating
column names, derives a vertex table from an edge table, and exposes two
degree-aggregation queries as lazy plans.  We shallowly embed the relevant
polars primitives (DataFrame, LazyFrame plans built from select/alias,
vertical concat, unique-keep-first, and group-by count, together with
`collect`) and then the functions of `graph_frame.rs` on top of them.

Cell values are modelled by an untyped `Value` (strings and naturals cover
vertex identifiers and the counts produced by the aggregations).  A
`DataFrame` is a header of column names plus a list of rows; the order of
rows is significant, matching the spec's description of the engine
collaborator (ordered sequences of rows, first-keep deduplication).
-/

namespace PregelRs

/-- Cell values stored in a data frame: strings (identifiers) and naturals
(the counts produced by group-by aggregation). -/
inductive Value where
  | str : String → Value
  | nat : Nat → Value
deriving DecidableEq, Repr

instance : Inhabited Value := ⟨Value.nat 0⟩

/-- A materialized polars DataFrame: a header of column names and a list of
rows, each row listing its cells in header order. -/
structure DataFrame where
  columns : List String
  rows : List (List Value)
deriving DecidableEq, Repr

/-- Column-name constant ID = "id" from the source. -/
def ID : String := "id"

/-- Column-name constant SRC = "src" from the source. -/
def SRC : String := "src"

/-- Column-name constant DST = "dst" from the source. -/
def DST : String := "dst"

/-- Column-name constant EDGE = "edge" from the source. -/
def EDGE : String := "edge"

/-- Column-name constant MSG = "msg" from the source. -/
def MSG : String := "msg"

/-- Index of a column name in a header (length of the header when absent). -/
def colIdx (cols : List String) (c : String) : Nat :=
  cols.findIdx (fun n => n = c)

/-- The cell of a row at a named column (default value when out of range;
the operations below only read columns they have checked to be present). -/
def getVal (cols : List String) (r : List Value) (c : String) : Value :=
  r.getD (colIdx cols c) default

/-- The list of values of a named column, in row order. -/
def column (df : DataFrame) (c : String) : List Value :=
  df.rows.map (fun r => getVal df.columns r c)

/-- Errors of the underlying query engine (polars), as far as this core
observes them: a plan referring to a column the frame does not have fails
at materialization, and vertical concatenation of mismatched schemas
fails.  Modelled from the spec's collaborator contract for the engine. -/
inductive PolarsError where
  | columnNotFound : String → PolarsError
  | schemaMismatch : PolarsError
deriving DecidableEq, Repr

/-- A deferred query plan (polars LazyFrame), restricted to the plan shapes
graph_frame.rs actually builds: a materialized source frame, a
single-column select-with-alias, vertical concatenation, unique-keep-first
on a subset of columns, and group-by with a count aggregation. -/
inductive LazyFrame where
  | source : DataFrame → LazyFrame
  | selectAlias : LazyFrame → String → String → LazyFrame
  | concat : LazyFrame → LazyFrame → LazyFrame
  | unique : LazyFrame → List String → LazyFrame
  | groupbyCount : LazyFrame → String → String → String → LazyFrame
deriving DecidableEq, Repr

/-- Keep the first row of each key, dropping later rows whose key was
already seen: the semantics of unique with UniqueKeepStrategy::First. -/
def keepFirstBy (key : List Value → List Value) (seen : List (List Value)) :
    List (List Value) → List (List Value)
  | [] => []
  | r :: rs =>
    if key r ∈ seen then keepFirstBy key seen rs
    else r :: keepFirstBy key (key r :: seen) rs

/-- First-occurrence deduplication of a list of values, carrying the set of
already-seen values. -/
def dedupAux (seen : List Value) : List Value → List Value
  | [] => []
  | x :: xs =>
    if x ∈ seen then dedupAux seen xs
    else x :: dedupAux (x :: seen) xs

/-- First-occurrence deduplication of a list of values. -/
def dedupFirst (l : List Value) : List Value := dedupAux [] l

/-- Materialize a deferred plan (polars collect).  Modelled from the spec's
collaborator contract: select of an absent column and unique over an
absent subset column fail with a column-not-found engine error; vertical
concatenation requires identical headers; group-by count produces one row
per distinct key (first-occurrence order) with the group's row count. -/
def collect : LazyFrame → Except PolarsError DataFrame
  | .source df => .ok df
  | .selectAlias lf c a =>
    match collect lf with
    | .error e => .error e
    | .ok df =>
      if c ∈ df.columns then
        .ok ⟨[a], df.rows.map (fun r => [getVal df.columns r c])⟩
      else
        .error (.columnNotFound c)
  | .concat l r =>
    match collect l with
    | .error e => .error e
    | .ok dfl =>
      match collect r with
      | .error e => .error e
      | .ok dfr =>
        if dfl.columns = dfr.columns then
          .ok ⟨dfl.columns, dfl.rows ++ dfr.rows⟩
        else
          .error .schemaMismatch
  | .unique lf subset =>
    match collect lf with
    | .error e => .error e
    | .ok df =>
      if subset.all (fun c => c ∈ df.columns) then
        .ok ⟨df.columns,
          keepFirstBy (fun r => subset.map (fun c => getVal df.columns r c))
            [] df.rows⟩
      else
        .error (.columnNotFound
          ((subset.filter (fun c => c ∉ df.columns)).headD ""))
  | .groupbyCount lf keyCol keyAlias aggName =>
    match collect lf with
    | .error e => .error e
    | .ok df =>
      if keyCol ∈ df.columns then
        .ok ⟨[keyAlias, aggName],
          (dedupFirst (column df keyCol)).map
            (fun k => [k, Value.nat ((column df keyCol).count k)])⟩
      else
        .error (.columnNotFound keyCol)

/-- The three construction-time validation errors of graph_frame.rs. -/
inductive MissingColumnError where
  | id : MissingColumnError
  | src : MissingColumnError
  | dst : MissingColumnError
deriving DecidableEq, Repr

/-- The closed error taxonomy of graph_frame.rs: a wrapped engine failure
or a missing required column. -/
inductive GraphFrameError where
  | fromPolars : PolarsError → GraphFrameError
  | missingColumn : MissingColumnError → GraphFrameError
deriving DecidableEq, Repr

/-- A validated graph: a vertex plan and an edge plan. -/
structure GraphFrame where
  vertices : LazyFrame
  edges : LazyFrame
deriving DecidableEq, Repr

namespace GraphFrame

/-- GraphFrame::new — validates, in order, that the vertex header contains
ID, then that the edge header contains SRC, then DST, returning the first
missing column; on success wraps both frames as source plans. -/
def new (vertices edges : DataFrame) : Except GraphFrameError GraphFrame :=
  if ID ∈ vertices.columns then
    if SRC ∈ edges.columns then
      if DST ∈ edges.columns then
        .ok ⟨.source vertices, .source edges⟩
      else
        .error (.missingColumn .dst)
    else
      .error (.missingColumn .src)
  else
    .error (.missingColumn .id)

/-- The vertices_lf plan built inside GraphFrame::from_edges: select SRC
aliased to ID, select DST aliased to ID, concatenate the two, and
deduplicate on ID keeping the first occurrence. -/
def vertexPlan (edges : DataFrame) : LazyFrame :=
  .unique
    (.concat (.selectAlias (.source edges) SRC ID)
             (.selectAlias (.source edges) DST ID))
    [ID]

/-- GraphFrame::from_edges — builds the vertexPlan, materializes it
(propagating any engine failure wrapped as FromPolars, the semantics of
the question-mark operator on the collect call), and delegates to new. -/
def from_edges (edges : DataFrame) : Except GraphFrameError GraphFrame :=
  match collect (vertexPlan edges) with
  | .error e => .error (.fromPolars e)
  | .ok vertices => new vertices edges

/-- GraphFrame::out_degrees — groups the edge plan by SRC aliased to ID and
counts rows per group into a column named out_degree; unevaluated. -/
def out_degrees (g : GraphFrame) : LazyFrame :=
  .groupbyCount g.edges SRC ID "out_degree"

/-- GraphFrame::in_degrees — groups the edge plan by DST (key kept named
DST) and counts rows per group into a column named in_degree. -/
def in_degrees (g : GraphFrame) : LazyFrame :=
  .groupbyCount g.edges DST DST "in_degree"

end GraphFrame

/-- The message closure inside the Display impl for MissingColumnError:
format("The vertices ... must contain a ... for the Graph to be created",
df, column), with the literal word "vertices" hardcoded before the df
placeholder. -/
def missingColumnMessage (df c : String) : String :=
  "The vertices " ++ df ++ " must contain a " ++ c ++
    " for the Graph to be created"

/-- Display for MissingColumnError: Id formats with ("vertices", ID), Src
with ("edges", SRC), Dst with ("edges", DST). -/
def missingColumnErrorDisplay : MissingColumnError → String
  | .id => missingColumnMessage "vertices" ID
  | .src => missingColumnMessage "edges" SRC
  | .dst => missingColumnMessage "edges" DST

/-- Rendering of an engine failure's description (the engine's own Display;
modelled from the spec's collaborator contract). -/
def polarsErrorDisplay : PolarsError → String
  | .columnNotFound c => "unable to find column " ++ c
  | .schemaMismatch => "cannot concat frames with mismatching schemas"

/-- Display for GraphFrameError delegates to the wrapped error's Display. -/
def graphFrameErrorDisplay : GraphFrameError → String
  | .fromPolars e => polarsErrorDisplay e
  | .missingColumn e => missingColumnErrorDisplay e

/-- Rendering of a single row of a materialized table (the engine's table
Display; modelled from the spec's collaborator contract). -/
def rowDisplay (r : List Value) : String :=
  String.intercalate ", " (r.map (fun v =>
    match v with
    | .str s => s
    | .nat n => toString n))

/-- Rendering of a materialized table. -/
def dfDisplay (df : DataFrame) : String :=
  String.intercalate ", " df.columns ++ "\n" ++
    String.intercalate "\n" (df.rows.map rowDisplay)

/-- Display for GraphFrame: materialize the vertex plan, on failure render
the failure's description and stop; else materialize the edge plan, on
failure render that failure's description; else render both tables. -/
def graphFrameDisplay (g : GraphFrame) : String :=
  match collect g.vertices with
  | .error e => polarsErrorDisplay e
  | .ok v =>
    match collect g.edges with
    | .error e => polarsErrorDisplay e
    | .ok ed => "Vertices: " ++ dfDisplay v ++ "\nEdges: " ++ dfDisplay ed

/-- The vertex table that from_edges derives from an edge table having SRC
and DST: a single ID column listing the first-occurrence deduplication of
the SRC values followed by the DST values. -/
def derivedVertices (e : DataFrame) : DataFrame :=
  ⟨[ID], (dedupFirst (column e SRC ++ column e DST)).map (fun v => [v])⟩

/-- Lookup in a materialized two-column degree table: the second cell of
the first row whose first cell is the given key, if any. -/
def degreeOf (df : DataFrame) (k : Value) : Option Value :=
  (df.rows.find? (fun r => r.getD 0 default = k)).map (fun r => r.getD 1 default)

/-- Vertex identifier A of the spec's worked degree example. -/
def vA : Value := .str "A"

/-- Vertex identifier B of the spec's worked degree example. -/
def vB : Value := .str "B"

/-- Vertex identifier C of the spec's worked degree example. -/
def vC : Value := .str "C"

/-- The edge table of the spec's worked degree example:
rows (A,B), (A,C), (B,C). -/
def exampleEdges : DataFrame :=
  ⟨[SRC, DST], [[vA, vB], [vA, vC], [vB, vC]]⟩

/-- The vertex table with ids A, B, C. -/
def exampleVertices : DataFrame :=
  ⟨[ID], [[vA], [vB], [vC]]⟩

/-- The GraphFrame over the worked example's tables. -/
def exampleGraph : GraphFrame :=
  ⟨.source exampleVertices, .source exampleEdges⟩

/-- The spec's round-trip example edge table: one row (A,B). -/
def exampleSmallEdges : DataFrame := ⟨[SRC, DST], [[vA, vB]]⟩

/-- An edge table with the reserved attribute columns edge and msg besides
src and dst. -/
def attrEdges : DataFrame :=
  ⟨[SRC, DST, EDGE, MSG], [[vA, vB, .nat 1, .nat 7]]⟩

/-- An edge table lacking the src column. -/
def edgesNoSrc : DataFrame := ⟨[DST], [[vB]]⟩

/-- An edge table with src and dst columns and zero rows. -/
def emptyEdges : DataFrame := ⟨[SRC, DST], []⟩

/-- The materialized out-degree table of the worked example:
A has 2 outgoing edges, B has 1, C none (absent). -/
def expectedOutDegrees : DataFrame :=
  ⟨[ID, "out_degree"], [[vA, .nat 2], [vB, .nat 1]]⟩

/-- The materialized in-degree table of the worked example:
B has 1 incoming edge, C has 2, A none (absent). -/
def expectedInDegrees : DataFrame :=
  ⟨[DST, "in_degree"], [[vB, .nat 1], [vC, .nat 2]]⟩

/-- A GraphFrame whose vertex plan fails to materialize (its select refers
to a column the source frame does not have). -/
def badGraph : GraphFrame :=
  ⟨.selectAlias (.source ⟨[], []⟩) SRC ID, .source ⟨[], []⟩⟩

open GraphFrame

/-- Membership in dedupAux: exactly the elements of the list that are not
already in the seen accumulator. -/
theorem mem_dedupAux (y : Value) (l : List Value) :
    ∀ seen, y ∈ dedupAux seen l ↔ y ∈ l ∧ y ∉ seen := by
  induction l with
  | nil => intro seen; simp [dedupAux]
  | cons x xs ih =>
    intro seen
    simp only [dedupAux]
    by_cases hx : x ∈ seen
    · rw [if_pos hx, ih seen]
      simp only [List.mem_cons]
      constructor
      · rintro ⟨h1, h2⟩
        exact ⟨Or.inr h1, h2⟩
      · rintro ⟨h1 | h1, h2⟩
        · exact absurd (h1 ▸ hx) h2
        · exact ⟨h1, h2⟩
    · rw [if_neg hx]
      simp only [List.mem_cons, ih (x :: seen), not_or]
      constructor
      · rintro (rfl | ⟨h1, h2, h3⟩)
        · exact ⟨Or.inl rfl, hx⟩
        · exact ⟨Or.inr h1, h3⟩
      · rintro ⟨rfl | h1, h2⟩
        · exact Or.inl rfl
        · by_cases hyx : y = x
          · exact Or.inl hyx
          · exact Or.inr ⟨h1, hyx, h2⟩

/-- Membership in dedupFirst is membership in the original list. -/
theorem mem_dedupFirst (y : Value) (l : List Value) :
    y ∈ dedupFirst l ↔ y ∈ l := by
  simp [dedupFirst, mem_dedupAux]

/-- dedupAux never repeats an element. -/
theorem nodup_dedupAux (l : List Value) :
    ∀ seen, (dedupAux seen l).Nodup := by
  induction l with
  | nil => intro seen; simp [dedupAux]
  | cons x xs ih =>
    intro seen
    simp only [dedupAux]
    by_cases hx : x ∈ seen
    · rw [if_pos hx]
      exact ih seen
    · rw [if_neg hx]
      refine List.nodup_cons.mpr ⟨?_, ih (x :: seen)⟩
      intro hc
      exact ((mem_dedupAux x xs (x :: seen)).mp hc).2 (List.mem_cons_self x seen)

/-- dedupFirst never repeats an element. -/
theorem nodup_dedupFirst (l : List Value) : (dedupFirst l).Nodup :=
  nodup_dedupAux l []

/-- dedupAux only inspects the seen accumulator through membership. -/
theorem dedupAux_congr (l : List Value) :
    ∀ s1 s2, (∀ x, x ∈ s1 ↔ x ∈ s2) → dedupAux s1 l = dedupAux s2 l := by
  induction l with
  | nil => intro s1 s2 _; rfl
  | cons x xs ih =>
    intro s1 s2 h
    simp only [dedupAux]
    by_cases hx : x ∈ s1
    · rw [if_pos hx, if_pos ((h x).mp hx)]
      exact ih s1 s2 h
    · rw [if_neg hx, if_neg (fun hc => hx ((h x).mpr hc))]
      rw [ih (x :: s1) (x :: s2) (by intro y; simp [List.mem_cons, h y])]

/-- dedupAux distributes over append: the elements kept from the second
part are those not seen and not occurring in the first part. -/
theorem dedupAux_append (a : List Value) :
    ∀ seen b,
      dedupAux seen (a ++ b) = dedupAux seen a ++ dedupAux (a ++ seen) b := by
  induction a with
  | nil => intro seen b; simp [dedupAux]
  | cons x a' ih =>
    intro seen b
    simp only [List.cons_append, dedupAux, List.append_eq]
    by_cases hx : x ∈ seen
    · simp only [if_pos hx]
      rw [ih seen b]
      congr 1
      apply dedupAux_congr
      intro y
      constructor
      · intro hy
        exact List.mem_cons_of_mem x hy
      · intro hy
        rcases List.mem_cons.mp hy with rfl | h
        · exact List.mem_append.mpr (Or.inr hx)
        · exact h
    · simp only [if_neg hx]
      rw [ih (x :: seen) b, List.cons_append]
      congr 2
      apply dedupAux_congr
      intro y
      constructor
      · intro hy
        rcases List.mem_append.mp hy with h | h
        · exact List.mem_cons_of_mem x (List.mem_append.mpr (Or.inl h))
        · rcases List.mem_cons.mp h with rfl | h
          · exact List.mem_cons_self y _
          · exact List.mem_cons_of_mem x (List.mem_append.mpr (Or.inr h))
      · intro hy
        rcases List.mem_cons.mp hy with rfl | h
        · exact List.mem_append.mpr (Or.inr (List.mem_cons_self y seen))
        · rcases List.mem_append.mp h with h | h
          · exact List.mem_append.mpr (Or.inl h)
          · exact List.mem_append.mpr (Or.inr (List.mem_cons_of_mem x h))

/-- On frames of singleton rows, unique-keep-first with a key that is the
identity on singleton rows is first-occurrence value deduplication. -/
theorem keepFirstBy_singleton (key : List Value → List Value)
    (hkey : ∀ v, key [v] = [v]) (vals : List Value) :
    ∀ seen,
      keepFirstBy key (seen.map (fun v => [v])) (vals.map (fun v => [v])) =
        (dedupAux seen vals).map (fun v => [v]) := by
  induction vals with
  | nil => intro seen; simp [keepFirstBy, dedupAux]
  | cons x xs ih =>
    intro seen
    simp only [List.map_cons, keepFirstBy, dedupAux, hkey]
    by_cases hx : x ∈ seen
    · have h1 : [x] ∈ seen.map (fun v => [v]) := List.mem_map_of_mem _ hx
      rw [if_pos h1, if_pos hx]
      exact ih seen
    · have h1 : [x] ∉ seen.map (fun v => [v]) := by
        intro hc
        rcases List.mem_map.mp hc with ⟨y, hy, hyx⟩
        have : y = x := by simpa using hyx
        exact hx (this ▸ hy)
      rw [if_neg h1, if_neg hx, List.map_cons]
      have h2 : ([x] :: seen.map (fun v => [v])) =
          (x :: seen).map (fun v => [v]) := rfl
      rw [h2, ih (x :: seen)]

/-- Reading back the single column of a frame of singleton rows. -/
theorem column_singleton (c : String) (vals : List Value) :
    column ⟨[c], vals.map (fun v => [v])⟩ c = vals := by
  simp only [column, List.map_map]
  have : ∀ v : Value, getVal [c] [v] c = v := by
    intro v
    simp [getVal, colIdx, List.findIdx_cons, List.getD]
  simp only [Function.comp_def, this]
  exact List.map_id vals

/-- One step of collect: select-with-alias over a materializable plan whose
frame has the selected column. -/
theorem collect_selectAlias_ok (lf : LazyFrame) (df : DataFrame)
    (c a : String) (h : collect lf = .ok df) (hc : c ∈ df.columns) :
    collect (.selectAlias lf c a) =
      .ok ⟨[a], df.rows.map (fun r => [getVal df.columns r c])⟩ := by
  simp only [collect, h]
  rw [if_pos hc]

/-- One step of collect: select-with-alias of an absent column fails with a
column-not-found engine error. -/
theorem collect_selectAlias_err (lf : LazyFrame) (df : DataFrame)
    (c a : String) (h : collect lf = .ok df) (hc : c ∉ df.columns) :
    collect (.selectAlias lf c a) = .error (.columnNotFound c) := by
  simp only [collect, h]
  rw [if_neg hc]

/-- One step of collect: a failing sub-plan fails the select. -/
theorem collect_selectAlias_propagate (lf : LazyFrame) (pe : PolarsError)
    (c a : String) (h : collect lf = .error pe) :
    collect (.selectAlias lf c a) = .error pe := by
  simp only [collect, h]

/-- One step of collect: concatenation of two materializable plans with
identical headers appends their rows. -/
theorem collect_concat_ok (l r : LazyFrame) (dfl dfr : DataFrame)
    (hl : collect l = .ok dfl) (hr : collect r = .ok dfr)
    (hc : dfl.columns = dfr.columns) :
    collect (.concat l r) = .ok ⟨dfl.columns, dfl.rows ++ dfr.rows⟩ := by
  simp only [collect, hl, hr]
  rw [if_pos hc]

/-- One step of collect: a failing left sub-plan fails the concat. -/
theorem collect_concat_propagate_left (l r : LazyFrame) (pe : PolarsError)
    (h : collect l = .error pe) :
    collect (.concat l r) = .error pe := by
  simp only [collect, h]

/-- One step of collect: a failing right sub-plan fails the concat. -/
theorem collect_concat_propagate_right (l r : LazyFrame) (dfl : DataFrame)
    (pe : PolarsError) (hl : collect l = .ok dfl)
    (h : collect r = .error pe) :
    collect (.concat l r) = .error pe := by
  simp only [collect, hl, h]

/-- One step of collect: unique over a materializable plan containing the
whole subset keeps the first row of each key. -/
theorem collect_unique_ok (lf : LazyFrame) (df : DataFrame)
    (subset : List String) (h : collect lf = .ok df)
    (hsub : subset.all (fun c => c ∈ df.columns)) :
    collect (.unique lf subset) =
      .ok ⟨df.columns,
        keepFirstBy (fun r => subset.map (fun c => getVal df.columns r c))
          [] df.rows⟩ := by
  simp only [collect, h]
  rw [if_pos hsub]

/-- One step of collect: a failing sub-plan fails the unique. -/
theorem collect_unique_propagate (lf : LazyFrame) (subset : List String)
    (pe : PolarsError) (h : collect lf = .error pe) :
    collect (.unique lf subset) = .error pe := by
  simp only [collect, h]

/-- One step of collect: group-by count over a materializable plan having
the key column produces one row per distinct key with its multiplicity. -/
theorem collect_groupbyCount_ok (lf : LazyFrame) (df : DataFrame)
    (keyCol keyAlias aggName : String) (h : collect lf = .ok df)
    (hk : keyCol ∈ df.columns) :
    collect (.groupbyCount lf keyCol keyAlias aggName) =
      .ok ⟨[keyAlias, aggName],
        (dedupFirst (column df keyCol)).map
          (fun k => [k, Value.nat ((column df keyCol).count k)])⟩ := by
  simp only [collect, h]
  rw [if_pos hk]

/-- The rows of the select-with-alias projection, seen as the singleton
rows of the projected column. -/
theorem map_column (e : DataFrame) (c : String) :
    e.rows.map (fun r => [getVal e.columns r c]) =
      (column e c).map (fun v => [v]) := by
  simp only [column, List.map_map]
  rfl

/-- Materializing the vertexPlan of an edge table with SRC and DST yields
the derived vertex table. -/
theorem collect_vertexPlan (e : DataFrame) (hs : SRC ∈ e.columns)
    (hd : DST ∈ e.columns) :
    collect (vertexPlan e) = .ok (derivedVertices e) := by
  have hsrc := collect_selectAlias_ok (.source e) e SRC ID rfl hs
  have hdst := collect_selectAlias_ok (.source e) e DST ID rfl hd
  rw [map_column e SRC] at hsrc
  rw [map_column e DST] at hdst
  have hconcat := collect_concat_ok _ _ _ _ hsrc hdst rfl
  have hsub : [ID].all (fun c => c ∈ (⟨[ID],
      (column e SRC).map (fun v => [v]) ++
        (column e DST).map (fun v => [v])⟩ : DataFrame).columns) := by
    simp
  have huniq := collect_unique_ok _ _ [ID] hconcat hsub
  rw [vertexPlan, huniq]
  have hkey : ∀ v, (fun r => [ID].map (fun c => getVal [ID] r c)) [v] = [v] := by
    intro v
    simp [getVal, colIdx, List.findIdx_cons, List.getD]
  have hk := keepFirstBy_singleton
    (fun r => [ID].map (fun c => getVal [ID] r c)) hkey
    (column e SRC ++ column e DST) []
  simp only [List.map_nil, List.map_append] at hk
  simp only [derivedVertices, dedupFirst]
  rw [← hk]

/-- Materializing the vertexPlan of an edge table without SRC fails with
the engine's column-not-found error for SRC. -/
theorem collect_vertexPlan_err_src (e : DataFrame) (hs : SRC ∉ e.columns) :
    collect (vertexPlan e) = .error (.columnNotFound SRC) := by
  have h1 := collect_selectAlias_err (.source e) e SRC ID rfl hs
  have h2 := collect_concat_propagate_left
    (.selectAlias (.source e) SRC ID) (.selectAlias (.source e) DST ID) _ h1
  exact collect_unique_propagate _ [ID] _ h2

/-- Materializing the vertexPlan of an edge table with SRC but without DST
fails with the engine's column-not-found error for DST. -/
theorem collect_vertexPlan_err_dst (e : DataFrame) (hs : SRC ∈ e.columns)
    (hd : DST ∉ e.columns) :
    collect (vertexPlan e) = .error (.columnNotFound DST) := by
  have h1 := collect_selectAlias_ok (.source e) e SRC ID rfl hs
  have h2 := collect_selectAlias_err (.source e) e DST ID rfl hd
  have h3 := collect_concat_propagate_right
    (.selectAlias (.source e) SRC ID) (.selectAlias (.source e) DST ID)
    _ _ h1 h2
  exact collect_unique_propagate _ [ID] _ h3

/-- new succeeds exactly on the validated headers and wraps the two frames
as source plans. -/
theorem new_ok (v e : DataFrame) (hv : ID ∈ v.columns) (hs : SRC ∈ e.columns)
    (hd : DST ∈ e.columns) :
    GraphFrame.new v e = .ok ⟨.source v, .source e⟩ := by
  simp [GraphFrame.new, hv, hs, hd]

/-- from_edges on an edge table with SRC and DST succeeds with the derived
vertex table and the original edge table, wrapped as source plans. -/
theorem from_edges_ok (e : DataFrame) (hs : SRC ∈ e.columns)
    (hd : DST ∈ e.columns) :
    GraphFrame.from_edges e = .ok ⟨.source (derivedVertices e), .source e⟩ := by
  rw [GraphFrame.from_edges, collect_vertexPlan e hs hd]
  exact new_ok _ e (by simp [derivedVertices]) hs hd

/-- C1: new validates in the fixed order id, then src, then dst,
short-circuiting on the first missing column: a vertex table without id
yields MissingColumn Id regardless of the edge table; with id present, an
edge table without src yields MissingColumn Src; with id and src present,
a missing dst yields MissingColumn Dst.  The three cases have mutually
exclusive guards. -/
theorem new_validates_in_order (v e : DataFrame) :
    (ID ∉ v.columns → new v e = .error (.missingColumn .id)) ∧
    (ID ∈ v.columns → SRC ∉ e.columns →
      new v e = .error (.missingColumn .src)) ∧
    (ID ∈ v.columns → SRC ∈ e.columns → DST ∉ e.columns →
      new v e = .error (.missingColumn .dst)) := by
  refine ⟨fun h1 => ?_, fun h1 h2 => ?_, fun h1 h2 h3 => ?_⟩ <;>
    simp [GraphFrame.new, *]

/-- Witness for C1: the three validation branches at concrete tables; the
first uses a fully valid edge table, showing the Id error ignores it. -/
theorem new_validates_in_order_witness :
    new ⟨[DST], []⟩ ⟨[SRC, DST], []⟩ = .error (.missingColumn .id) ∧
    new ⟨[ID], []⟩ ⟨[DST], []⟩ = .error (.missingColumn .src) ∧
    new ⟨[ID], []⟩ ⟨[SRC], []⟩ = .error (.missingColumn .dst) :=
  ⟨(new_validates_in_order ⟨[DST], []⟩ ⟨[SRC, DST], []⟩).1 (by decide),
   (new_validates_in_order ⟨[ID], []⟩ ⟨[DST], []⟩).2.1 (by decide) (by decide),
   (new_validates_in_order ⟨[ID], []⟩ ⟨[SRC], []⟩).2.2 (by decide) (by decide)
     (by decide)⟩

/-- C6: on a vertex table with id and an edge table with src and dst, new
succeeds and its result is exactly the two inputs wrapped as source plans
(only column names are consulted — the hypotheses mention nothing but the
headers), and materializing either plan returns the input rows
unchanged. -/
theorem new_wraps_inputs (v e : DataFrame) (hv : ID ∈ v.columns)
    (hs : SRC ∈ e.columns) (hd : DST ∈ e.columns) :
    new v e = .ok ⟨.source v, .source e⟩ ∧
    ∀ g, new v e = .ok g →
      collect g.vertices = .ok v ∧ collect g.edges = .ok e := by
  refine ⟨new_ok v e hv hs hd, ?_⟩
  intro g hg
  rw [new_ok v e hv hs hd] at hg
  cases hg
  exact ⟨rfl, rfl⟩

/-- Witness for C6: the spec's round-trip example, vertices with ids
A, B, C and the single edge (A,B). -/
theorem new_wraps_inputs_witness :
    new exampleVertices exampleSmallEdges =
      .ok ⟨.source exampleVertices, .source exampleSmallEdges⟩ ∧
    collect (LazyFrame.source exampleVertices) = .ok exampleVertices ∧
    collect (LazyFrame.source exampleSmallEdges) = .ok exampleSmallEdges := by
  have h := new_wraps_inputs exampleVertices exampleSmallEdges (by decide)
    (by decide) (by decide)
  exact ⟨h.1, (h.2 _ h.1).1, (h.2 _ h.1).2⟩

/-- C2: for an edge table with src and dst, from_edges succeeds and the
materialized vertex table's id column is the first-occurrence
deduplication of the src values followed by the dst values: it has no
duplicates, its members are exactly the union of the src and dst values,
and it splits into a src-derived part followed by a part of dst values
that occur in no src cell. -/
theorem from_edges_vertex_ids (e : DataFrame) (hs : SRC ∈ e.columns)
    (hd : DST ∈ e.columns) :
    ∃ g vdf, from_edges e = .ok g ∧ collect g.vertices = .ok vdf ∧
      column vdf ID = dedupFirst (column e SRC ++ column e DST) ∧
      (column vdf ID).Nodup ∧
      (∀ x, x ∈ column vdf ID ↔ x ∈ column e SRC ∨ x ∈ column e DST) ∧
      ∃ l1 l2, column vdf ID = l1 ++ l2 ∧
        (∀ x ∈ l1, x ∈ column e SRC) ∧
        (∀ x ∈ l2, x ∈ column e DST ∧ x ∉ column e SRC) := by
  have hcol : column (derivedVertices e) ID =
      dedupFirst (column e SRC ++ column e DST) := by
    simp only [derivedVertices]
    exact column_singleton ID _
  refine ⟨_, derivedVertices e, from_edges_ok e hs hd, rfl, hcol, ?_, ?_, ?_⟩
  · rw [hcol]
    exact nodup_dedupFirst _
  · intro x
    rw [hcol, mem_dedupFirst]
    exact List.mem_append
  · refine ⟨dedupAux [] (column e SRC),
      dedupAux (column e SRC) (column e DST), ?_, ?_, ?_⟩
    · rw [hcol]
      simp only [dedupFirst]
      rw [dedupAux_append (column e SRC) [] (column e DST),
        List.append_nil]
    · intro x hx
      exact ((mem_dedupAux x (column e SRC) []).mp hx).1
    · intro x hx
      have h := (mem_dedupAux x (column e DST) (column e SRC)).mp hx
      exact ⟨h.1, h.2⟩

/-- Witness for C2: on the worked example's edges, the derived id column
evaluates to A, B, C. -/
theorem from_edges_vertex_ids_witness :
    ∃ g vdf, from_edges exampleEdges = .ok g ∧
      collect g.vertices = .ok vdf ∧ column vdf ID = [vA, vB, vC] := by
  obtain ⟨g, vdf, h1, h2, h3, _⟩ :=
    from_edges_vertex_ids exampleEdges (by decide) (by decide)
  exact ⟨g, vdf, h1, h2, by rw [h3]; decide⟩

/-- C10: the vertex table derived by from_edges has exactly one column,
named id; no other edge-table column survives the projection. -/
theorem from_edges_single_id_column (e : DataFrame) (hs : SRC ∈ e.columns)
    (hd : DST ∈ e.columns) :
    ∃ g vdf, from_edges e = .ok g ∧ collect g.vertices = .ok vdf ∧
      vdf.columns = [ID] :=
  ⟨_, derivedVertices e, from_edges_ok e hs hd, rfl, rfl⟩

/-- Witness for C10: an edge table also carrying the reserved edge and msg
attribute columns still derives a vertex table with the single column
id. -/
theorem from_edges_single_id_column_witness :
    ∃ g vdf, from_edges attrEdges = .ok g ∧ collect g.vertices = .ok vdf ∧
      vdf.columns = [ID] :=
  from_edges_single_id_column attrEdges (by decide) (by decide)

/-- Counterexample for C3: on the concrete edge table with a dst column
but no src column, from_edges fails with the wrapped engine
column-not-found error, not with MissingColumn Src as the claim's
delegation story predicts — the collect of the derived-vertex plan fails
before new is ever reached. -/
theorem from_edges_missing_src_engine_error :
    from_edges edgesNoSrc = .error (.fromPolars (.columnNotFound SRC)) ∧
    from_edges edgesNoSrc ≠ .error (.missingColumn .src) := by
  constructor
  · rfl
  · intro h
    cases h

/-- C3 (amended): for every edge table lacking src or lacking dst,
from_edges fails, but with a wrapped engine column-not-found error from
materializing the derived-vertex plan; the MissingColumn errors of the
delegated new call are unreachable through from_edges. -/
theorem from_edges_missing_column_behavior (e : DataFrame) :
    (SRC ∉ e.columns →
      from_edges e = .error (.fromPolars (.columnNotFound SRC))) ∧
    (SRC ∈ e.columns → DST ∉ e.columns →
      from_edges e = .error (.fromPolars (.columnNotFound DST))) ∧
    (∀ m, from_edges e ≠ .error (.missingColumn m)) := by
  refine ⟨?_, ?_, ?_⟩
  · intro hs
    rw [GraphFrame.from_edges, collect_vertexPlan_err_src e hs]
  · intro hs hd
    rw [GraphFrame.from_edges, collect_vertexPlan_err_dst e hs hd]
  · intro m hc
    by_cases hs : SRC ∈ e.columns
    · by_cases hd : DST ∈ e.columns
      · rw [from_edges_ok e hs hd] at hc
        cases hc
      · rw [GraphFrame.from_edges, collect_vertexPlan_err_dst e hs hd] at hc
        cases hc
    · rw [GraphFrame.from_edges, collect_vertexPlan_err_src e hs] at hc
      cases hc

/-- Witness for C3 (amended): the src-less table fails with the engine
error and in particular not with MissingColumn Src. -/
theorem from_edges_missing_column_behavior_witness :
    from_edges edgesNoSrc = .error (.fromPolars (.columnNotFound SRC)) ∧
    from_edges edgesNoSrc ≠ .error (.missingColumn .src) :=
  ⟨(from_edges_missing_column_behavior edgesNoSrc).1 (by decide),
   (from_edges_missing_column_behavior edgesNoSrc).2.2 .src⟩

/-- C4: out_degrees is the unevaluated plan grouping the edge relation by
src renamed to id with row counts in a column named out_degree; its
materialization has header id, out_degree, one row per distinct src value
with that value's multiplicity, a key appears iff it occurs as some src
(so vertices with zero outgoing edges are absent); on the worked example
it maps A to 2 and B to 1 with C absent. -/
theorem out_degrees_spec (g : GraphFrame) (df : DataFrame)
    (he : g.edges = .source df) (hs : SRC ∈ df.columns) :
    out_degrees g = .groupbyCount g.edges SRC ID "out_degree" ∧
    collect (out_degrees g) =
      .ok ⟨[ID, "out_degree"],
        (dedupFirst (column df SRC)).map
          (fun k => [k, .nat ((column df SRC).count k)])⟩ ∧
    (∀ res, collect (out_degrees g) = .ok res →
      ∀ k, (∃ r ∈ res.rows, r.getD 0 default = k) ↔ k ∈ column df SRC) ∧
    collect (out_degrees exampleGraph) = .ok expectedOutDegrees ∧
    degreeOf expectedOutDegrees vA = some (.nat 2) ∧
    degreeOf expectedOutDegrees vB = some (.nat 1) ∧
    degreeOf expectedOutDegrees vC = none := by
  have h1 : out_degrees g = .groupbyCount g.edges SRC ID "out_degree" := rfl
  have h2 : collect (out_degrees g) =
      .ok ⟨[ID, "out_degree"],
        (dedupFirst (column df SRC)).map
          (fun k => [k, .nat ((column df SRC).count k)])⟩ := by
    rw [h1, he]
    exact collect_groupbyCount_ok (.source df) df SRC ID "out_degree" rfl hs
  refine ⟨h1, h2, ?_, rfl, by decide, by decide, by decide⟩
  intro res hres k
  rw [h2] at hres
  cases hres
  constructor
  · rintro ⟨r, hr, hk⟩
    rcases List.mem_map.mp hr with ⟨x, hx, rfl⟩
    simp only [List.getD, List.getElem?_cons_zero, Option.getD_some] at hk
    subst hk
    exact (mem_dedupFirst x (column df SRC)).mp hx
  · intro hk
    refine ⟨[k, .nat ((column df SRC).count k)], ?_, ?_⟩
    · exact List.mem_map_of_mem _ ((mem_dedupFirst k (column df SRC)).mpr hk)
    · simp [List.getD]

/-- Witness for C4: the plan over the worked example materializes to the
expected out-degree table and C is absent from it. -/
theorem out_degrees_spec_witness :
    collect (out_degrees exampleGraph) = .ok expectedOutDegrees ∧
    degreeOf expectedOutDegrees vC = none := by
  have h := out_degrees_spec exampleGraph exampleEdges rfl (by decide)
  exact ⟨h.2.2.2.1, h.2.2.2.2.2.2⟩

/-- C5: in_degrees is the unevaluated plan grouping the edge relation by
dst with the key column still named dst (not renamed to id) and row
counts in a column named in_degree; its materialization has header dst,
in_degree, one row per distinct dst value with that value's multiplicity,
a key appears iff it occurs as some dst (zero-in-degree vertices absent);
on the worked example it maps B to 1 and C to 2 with A absent. -/
theorem in_degrees_spec (g : GraphFrame) (df : DataFrame)
    (he : g.edges = .source df) (hd : DST ∈ df.columns) :
    in_degrees g = .groupbyCount g.edges DST DST "in_degree" ∧
    collect (in_degrees g) =
      .ok ⟨[DST, "in_degree"],
        (dedupFirst (column df DST)).map
          (fun k => [k, .nat ((column df DST).count k)])⟩ ∧
    (∀ res, collect (in_degrees g) = .ok res →
      ∀ k, (∃ r ∈ res.rows, r.getD 0 default = k) ↔ k ∈ column df DST) ∧
    collect (in_degrees exampleGraph) = .ok expectedInDegrees ∧
    degreeOf expectedInDegrees vB = some (.nat 1) ∧
    degreeOf expectedInDegrees vC = some (.nat 2) ∧
    degreeOf expectedInDegrees vA = none := by
  have h1 : in_degrees g = .groupbyCount g.edges DST DST "in_degree" := rfl
  have h2 : collect (in_degrees g) =
      .ok ⟨[DST, "in_degree"],
        (dedupFirst (column df DST)).map
          (fun k => [k, .nat ((column df DST).count k)])⟩ := by
    rw [h1, he]
    exact collect_groupbyCount_ok (.source df) df DST DST "in_degree" rfl hd
  refine ⟨h1, h2, ?_, rfl, by decide, by decide, by decide⟩
  intro res hres k
  rw [h2] at hres
  cases hres
  constructor
  · rintro ⟨r, hr, hk⟩
    rcases List.mem_map.mp hr with ⟨x, hx, rfl⟩
    simp only [List.getD, List.getElem?_cons_zero, Option.getD_some] at hk
    subst hk
    exact (mem_dedupFirst x (column df DST)).mp hx
  · intro hk
    refine ⟨[k, .nat ((column df DST).count k)], ?_, ?_⟩
    · exact List.mem_map_of_mem _ ((mem_dedupFirst k (column df DST)).mpr hk)
    · simp [List.getD]

/-- Witness for C5: the plan over the worked example materializes to the
expected in-degree table and A is absent from it. -/
theorem in_degrees_spec_witness :
    collect (in_degrees exampleGraph) = .ok expectedInDegrees ∧
    degreeOf expectedInDegrees vA = none := by
  have h := in_degrees_spec exampleGraph exampleEdges rfl (by decide)
  exact ⟨h.2.2.2.1, h.2.2.2.2.2.2⟩

/-- C7: rendering a GraphFrame always produces a string (no distinct error
type); when materializing the vertex plan fails the rendered text is the
failure's description, when the vertex plan succeeds but the edge plan
fails it is that failure's description, and when both succeed it is the
rendering of both tables. -/
theorem display_forwards_errors (g : GraphFrame) :
    (∀ e, collect g.vertices = .error e →
      graphFrameDisplay g = polarsErrorDisplay e) ∧
    (∀ v e, collect g.vertices = .ok v → collect g.edges = .error e →
      graphFrameDisplay g = polarsErrorDisplay e) ∧
    (∀ v ed, collect g.vertices = .ok v → collect g.edges = .ok ed →
      graphFrameDisplay g =
        "Vertices: " ++ dfDisplay v ++ "\nEdges: " ++ dfDisplay ed) := by
  refine ⟨?_, ?_, ?_⟩
  · intro e h
    simp only [graphFrameDisplay, h]
  · intro v e hv he
    simp only [graphFrameDisplay, hv, he]
  · intro v ed hv he
    simp only [graphFrameDisplay, hv, he]

/-- Witness for C7: a graph with a failing vertex plan renders the engine
failure's description; the worked example renders both tables. -/
theorem display_forwards_errors_witness :
    graphFrameDisplay badGraph = polarsErrorDisplay (.columnNotFound SRC) ∧
    graphFrameDisplay exampleGraph =
      "Vertices: " ++ dfDisplay exampleVertices ++
        "\nEdges: " ++ dfDisplay exampleEdges :=
  ⟨(display_forwards_errors badGraph).1 (.columnNotFound SRC) rfl,
   (display_forwards_errors exampleGraph).2.2 exampleVertices exampleEdges
     rfl rfl⟩

/-- C8: an edge table with src and dst columns and zero rows yields via
from_edges a successfully constructed GraphFrame whose vertex table is
empty. -/
theorem from_edges_empty_edges (e : DataFrame) (hs : SRC ∈ e.columns)
    (hd : DST ∈ e.columns) (hr : e.rows = []) :
    ∃ g, from_edges e = .ok g ∧
      collect g.vertices = .ok ⟨[ID], []⟩ := by
  refine ⟨_, from_edges_ok e hs hd, ?_⟩
  have h1 : column e SRC = [] := by simp [column, hr]
  have h2 : column e DST = [] := by simp [column, hr]
  simp [derivedVertices, h1, h2, dedupFirst, dedupAux, collect]

/-- Witness for C8: the concrete empty edge table. -/
theorem from_edges_empty_edges_witness :
    ∃ g, from_edges emptyEdges = .ok g ∧
      collect g.vertices = .ok ⟨[ID], []⟩ :=
  from_edges_empty_edges emptyEdges (by decide) (by decide) rfl

/-- C9: the rendered messages of the three MissingColumn errors.  Each
names the missing column correctly, but the format template hardcodes the
words "The vertices" before the table-name placeholder, so the Id message
reads "The vertices vertices ..." and the Src and Dst messages — which
report on the edges table — open with "The vertices edges ...". -/
theorem missing_column_display_text :
    missingColumnErrorDisplay .id =
      "The vertices vertices must contain a id for the Graph to be created" ∧
    missingColumnErrorDisplay .src =
      "The vertices edges must contain a src for the Graph to be created" ∧
    missingColumnErrorDisplay .dst =
      "The vertices edges must contain a dst for the Graph to be created" :=
  ⟨rfl, rfl, rfl⟩

end PregelRs
